import Mathlib

set_option maxRecDepth 10000

/-!
Verification development for the binja-pattern plugin
(src/PatternScanner.cpp, src/main.cpp).

The scan pipeline of `PatternScanner.cpp` is embedded shallowly:

* `ScanForArrayOfBytesInternal` and `ScanForArrayOfBytesTask` are translated
  directly from the source, keeping their names, branch structure and the
  order of operations (in particular, truncation by `resize` happens *before*
  `std::sort`, exactly as in the source).  `SCAN_RUNS = 1`, so the benchmark
  loop body is inlined once; wall-clock timing and log formatting strings are
  abstracted (report lines and log entries become inductive constructors
  carrying the data that the format strings interpolate).
* The cooperative cancellation flag is modelled by its Boolean value, held
  constant during one scan: the claims under study concern runs where the flag
  is either set before the task starts or never set.
* The `mem` pattern library (`mem::pattern`, `mem::default_scanner`) and the
  segment driver `brick::view_data::scan_all` are not part of this repository's
  sources; they are modelled from the specification (marked `Modelled from the
  spec:` below).
* Machine integers (`uint64_t` addresses, `size_t` counts) are modelled as
  `Nat`; none of the verified claims depends on wrap-around behaviour.
-/

namespace BinjaPattern

/-- Modelled from the spec: one cell of a compiled `mem::pattern` (§3) — a
concrete byte value or a wildcard.  The `mem` library is not under `src/`. -/
inductive Cell where
  | byte (value : Nat) : Cell
  | wild : Cell
deriving DecidableEq

/-- Modelled from the spec: a compiled `mem::pattern` (§3): the ordered
sequence of cells. -/
structure Pattern where
  cells : List Cell
deriving DecidableEq

/-- A segment of the scanned address space: a start address and the bytes the
host collaborator actually returns for it (§3, §6). -/
structure Segment where
  start : Nat
  bytes : List Nat
deriving DecidableEq

/-- What the analysis collaborator resolves for one basic block containing a
result address: the enclosing function's display name and the disassembled
instruction text (`GetInstructionContaningAddress` output, possibly empty). -/
structure BlockInfo where
  funcName : String
  instrText : String
deriving DecidableEq

/-- Modelled from the spec: whether one pattern cell accepts a byte (§4.2):
wildcards impose no constraint, concrete cells require equality. -/
def cellMatches : Cell → Nat → Bool
  | Cell.byte v, b => v == b
  | Cell.wild, _ => true

/-- Modelled from the spec: whether the pattern matches at the head of the
given buffer suffix (§4.2); a pattern longer than the remaining buffer does
not match. -/
def matchesHere : List Cell → List Nat → Bool
  | [], _ => true
  | _ :: _, [] => false
  | c :: cs, b :: bs => cellMatches c b && matchesHere cs bs

/-- Modelled from the spec: the matcher's walk over the buffer (§4.2),
reporting every offset (counted from `o`) whose suffix starts with a match;
matches may overlap. -/
def scanBufferAux (cells : List Cell) : List Nat → Nat → List Nat
  | [], _ => []
  | b :: bs, o =>
      (if matchesHere cells (b :: bs) then [o] else []) ++ scanBufferAux cells bs (o + 1)

/-- Modelled from the spec: `mem::default_scanner` applied to one flat buffer
(§4.2): all match offsets, in ascending order.  A pattern with zero cells is
defined to match nowhere (§4.2 edge cases). -/
def scanBuffer (cells : List Cell) (buf : List Nat) : List Nat :=
  if cells.isEmpty then [] else scanBufferAux cells buf 0

/-- Ordering of segments by start address, used by the driver's deterministic
iteration (§4.3). -/
def segLE (s t : Segment) : Prop := s.start ≤ t.start

instance : DecidableRel segLE := fun s t => Nat.decLe s.start t.start

instance : IsTotal Segment segLE := ⟨fun s t => Nat.le_total s.start t.start⟩

instance : IsTrans Segment segLE := ⟨fun _ _ _ h1 h2 => Nat.le_trans h1 h2⟩

/-- Modelled from the spec: `brick::view_data::scan_all` (the segmented scan
driver, §4.3), which is not under `src/`.  Segments are visited in ascending
start-address order; for each segment the matcher runs over its bytes and each
relative match offset is translated to the absolute address
`segment start + offset`; results are appended in that order (no sorting and
no deduplication happen here — §4.4 makes sorting the reporter's job). -/
def scan_all (cells : List Cell) (segs : List Segment) : List Nat :=
  (List.insertionSort segLE segs).flatMap
    (fun s => (scanBuffer cells s.bytes).map (fun o => s.start + o))

/-- `SCAN_RUNS` from `PatternScanner.cpp`. -/
def SCAN_RUNS : Nat := 1

/-- `MAX_SCAN_RESULTS` from `PatternScanner.cpp`. -/
def MAX_SCAN_RESULTS : Nat := 1000

/-- The two `BinjaLog(ErrorLog, ...)` messages of `PatternScanner.cpp`, with
the interpolated data kept and the format text abstracted. -/
inductive LogEntry where
  | errEmptyPattern (patternString : String)
  | errLengthMismatch (byteLen maskLen : Nat)
deriving DecidableEq

/-- Whether a log entry is the pattern/mask length-mismatch error. -/
def LogEntry.isLengthMismatchErr : LogEntry → Bool
  | LogEntry.errLengthMismatch _ _ => true
  | _ => false

/-- One line of the markdown report built by `ScanForArrayOfBytesInternal`,
with the interpolated data kept and the format text abstracted (timing values
are dropped: they come from external clocks). -/
inductive ReportLine where
  | warnTruncated (maxResults : Nat)
  | header (count : Nat) (patternString : String)
  | patternInfo (length : Nat)
  | addrLine (addr : Nat)
  | ctxLine (addr : Nat) (funcName : String) (instrText : String)
deriving DecidableEq

/-- The observable outcome of `ScanForArrayOfBytesInternal`: the error log,
whether the matcher was invoked, the final result list, whether the truncation
branch was taken, and the report handed to `ShowMarkdownReport` (`none` when
the function returns before building one). -/
structure InternalResult where
  log : List LogEntry
  scanned : Bool
  results : List Nat
  truncated : Bool
  report : Option (List ReportLine)
deriving DecidableEq

/-- The per-result report loop of `ScanForArrayOfBytesInternal` (lines
183–200): one address line per result, followed by one context line per basic
block the collaborator resolves for that address (none when it resolves no
block). -/
def formatResults (blocks : Nat → List BlockInfo) : List Nat → List ReportLine
  | [] => []
  | r :: rest =>
      (ReportLine.addrLine r ::
        (if (blocks r).isEmpty then []
         else (blocks r).map (fun b => ReportLine.ctxLine r b.funcName b.instrText)))
      ++ formatResults blocks rest

/-- `ScanForArrayOfBytesInternal` from `PatternScanner.cpp`, with the
`SCAN_RUNS = 1` benchmark loop inlined once.  The branch structure mirrors the
source: empty/malformed-pattern early return; cancellation check before the
scan (loop `break`) and after it (`break`, then the post-loop `return`);
accumulation of `sub_results` guarded by `results.size() <= MAX_SCAN_RESULTS`;
then the truncation warning and `resize` when
`results.size() >= MAX_SCAN_RESULTS`, followed by `std::sort` — in that
order — and the report construction. -/
def ScanForArrayOfBytesInternal (cancelled : Bool) (pat : Pattern)
    (pattern_string : String) (segs : List Segment)
    (blocks : Nat → List BlockInfo) : InternalResult :=
  if pat.cells.isEmpty then
    { log := [LogEntry.errEmptyPattern pattern_string], scanned := false,
      results := [], truncated := false, report := none }
  else if cancelled then
    { log := [], scanned := false, results := [], truncated := false, report := none }
  else
    let sub_results := scan_all pat.cells segs
    if cancelled then
      { log := [], scanned := true, results := [], truncated := false, report := none }
    else
      let results0 : List Nat := []
      let results :=
        if !sub_results.isEmpty then
          if results0.length ≤ MAX_SCAN_RESULTS then results0 ++ sub_results else results0
        else results0
      let truncated := decide (MAX_SCAN_RESULTS ≤ results.length)
      let results1 := if truncated then results.take MAX_SCAN_RESULTS else results
      let sorted := List.insertionSort (· ≤ ·) results1
      let rpt :=
        (if truncated then [ReportLine.warnTruncated MAX_SCAN_RESULTS] else [])
        ++ [ReportLine.header sorted.length pattern_string]
        ++ (if 0 < pat.cells.length then [ReportLine.patternInfo pat.cells.length] else [])
        ++ formatResults blocks sorted
      { log := [], scanned := true, results := sorted, truncated := truncated,
        report := some rpt }

/-- Modelled from the spec: the value of a hexadecimal digit character,
case-insensitive (§4.1 token grammar). -/
def hexDigitVal (c : Char) : Option Nat :=
  if '0' ≤ c ∧ c ≤ '9' then some (c.toNat - '0'.toNat)
  else if 'a' ≤ c ∧ c ≤ 'f' then some (c.toNat - 'a'.toNat + 10)
  else if 'A' ≤ c ∧ c ≤ 'F' then some (c.toNat - 'A'.toNat + 10)
  else none

/-- Modelled from the spec: one token of the token-form pattern grammar
(§4.1): exactly two hex digits give a concrete byte, a wildcard marker is `?`
or `??`, anything else fails to parse. -/
def parseToken (t : String) : Option Cell :=
  if t = "?" ∨ t = "??" then some Cell.wild
  else
    match t.toList with
    | [c1, c2] =>
      match hexDigitVal c1, hexDigitVal c2 with
      | some h1, some h2 => some (Cell.byte (16 * h1 + h2))
      | _, _ => none
    | _ => none

/-- Modelled from the spec: the token-form constructor `mem::pattern(const
char*)` (§4.1), which is not under `src/`: split on whitespace, parse each
token, and — per the documented reject-whole-pattern policy — yield zero cells
(the "empty/malformed" pattern) when any token is unrecognized. -/
def parsePattern (s : String) : List Cell :=
  match ((s.splitOn " ").filter (fun t => t ≠ "")).mapM parseToken with
  | some cs => cs
  | none => []

/-- Modelled from the spec: the byte+mask constructor
`mem::pattern(bytes, mask)` (§4.1), which is not under `src/`: the designated
wildcard mask character marks its byte as a wildcard cell, any other character
marks it concrete. -/
def patternFromBytesMask (bytes : List Nat) (mask : List Char) : List Cell :=
  List.zipWith (fun b c => if c = '?' then Cell.wild else Cell.byte b) bytes mask

/-- The observable outcome of `ScanForArrayOfBytesTask`: which construction
path ran plus the outcome of the inner scan. -/
structure TaskResult where
  usedTokenForm : Bool
  log : List LogEntry
  scanned : Bool
  results : List Nat
  truncated : Bool
  report : Option (List ReportLine)
deriving DecidableEq

/-- `ScanForArrayOfBytesTask` from `PatternScanner.cpp`.  `mem::unescape` is
external library code, so the task is parametrized by the `unescape` function
turning the pattern text into raw bytes.  With an empty mask the pattern text
is compiled in token form; otherwise the unescaped byte count is compared with
the mask length and a mismatch is logged and returned before any pattern is
built or any scan runs. -/
def ScanForArrayOfBytesTask (cancelled : Bool) (unescape : String → List Nat)
    (pattern_string mask_string : String) (segs : List Segment)
    (blocks : Nat → List BlockInfo) : TaskResult :=
  if mask_string = "" then
    let pat : Pattern := ⟨parsePattern pattern_string⟩
    let r := ScanForArrayOfBytesInternal cancelled pat pattern_string segs blocks
    { usedTokenForm := true, log := r.log, scanned := r.scanned,
      results := r.results, truncated := r.truncated, report := r.report }
  else
    let pattern_bytes := unescape pattern_string
    if pattern_bytes.length ≠ mask_string.length then
      { usedTokenForm := false,
        log := [LogEntry.errLengthMismatch pattern_bytes.length mask_string.length],
        scanned := false, results := [], truncated := false, report := none }
    else
      let pat : Pattern := ⟨patternFromBytesMask pattern_bytes mask_string.toList⟩
      let r := ScanForArrayOfBytesInternal cancelled pat
        (pattern_string ++ ", " ++ mask_string) segs blocks
      { usedTokenForm := false, log := r.log, scanned := r.scanned,
        results := r.results, truncated := r.truncated, report := r.report }

/-- The callback loop inside `BinjaPattern_Scan`: for each match offset (in
the matcher's ascending order) the offset is written to the output buffer and
`total` is incremented; the callback returns `total == limit`, which stops the
scanner. -/
def BinjaPattern_ScanLoop (limit : Nat) : List Nat → Nat → List Nat
  | [], _ => []
  | p :: rest, total =>
      if total + 1 == limit then [p]
      else p :: BinjaPattern_ScanLoop limit rest (total + 1)

/-- `BinjaPattern_Scan` from `PatternScanner.cpp`: the programmatic scan API.
Returns the written output entries (byte offsets relative to the data
pointer) together with the returned match count. -/
def BinjaPattern_Scan (pat : Pattern) (data : List Nat) (limit : Nat) :
    List Nat × Nat :=
  if limit = 0 then ([], 0)
  else
    let written := BinjaPattern_ScanLoop limit (scanBuffer pat.cells data) 0
    (written, written.length)

/-- The applicability predicate registered for "Pattern\Create Signature" in
`CorePluginInit` (`main.cpp` lines 34–54): the view's default architecture is
passed as `none` when `GetDefaultArchitecture` yields no architecture, and
otherwise as its name; `isOffsetExecutable` is `view->IsOffsetExecutable(addr)`
at the given address. -/
def isSignatureApplicable (archName : Option String)
    (isOffsetExecutable : Bool) : Bool :=
  match archName with
  | none => false
  | some arch_name =>
    if arch_name != "x86" && arch_name != "x86_64" then false
    else if !isOffsetExecutable then false
    else true

/-- Two segments occupy disjoint address ranges. -/
def segsDisjoint (s t : Segment) : Prop :=
  s.start + s.bytes.length ≤ t.start ∨ t.start + t.bytes.length ≤ s.start

instance : DecidableRel segsDisjoint := fun _ _ => instDecidableOr

/-- All segments of a list are pairwise disjoint. -/
def pairwiseDisjoint (segs : List Segment) : Prop :=
  segs.Pairwise segsDisjoint

instance : DecidablePred pairwiseDisjoint := fun _ => List.instDecidablePairwise _

/-! ### Helper lemmas about the matcher and the driver -/

lemma matchesHere_length {cs : List Cell} {bs : List Nat}
    (h : matchesHere cs bs = true) : cs.length ≤ bs.length := by
  induction cs generalizing bs with
  | nil => simp
  | cons c cs ih =>
    cases bs with
    | nil => simp [matchesHere] at h
    | cons b bs =>
      simp only [matchesHere, Bool.and_eq_true] at h
      have := ih h.2
      simp only [List.length_cons]
      omega

lemma mem_scanBufferAux {cells : List Cell} {buf : List Nat} {o x : Nat}
    (h : x ∈ scanBufferAux cells buf o) :
    o ≤ x ∧ x + cells.length ≤ o + buf.length := by
  induction buf generalizing o with
  | nil => simp [scanBufferAux] at h
  | cons b bs ih =>
    simp only [scanBufferAux, List.mem_append] at h
    rcases h with h | h
    · by_cases hm : matchesHere cells (b :: bs) = true
      · simp only [hm, if_true, List.mem_singleton] at h
        subst h
        have := matchesHere_length hm
        simp only [List.length_cons] at this ⊢
        omega
      · simp [hm] at h
    · have := ih h
      simp only [List.length_cons]
      omega

lemma pairwise_lt_scanBufferAux (cells : List Cell) (buf : List Nat) (o : Nat) :
    (scanBufferAux cells buf o).Pairwise (· < ·) := by
  induction buf generalizing o with
  | nil => simp [scanBufferAux]
  | cons b bs ih =>
    simp only [scanBufferAux]
    rw [List.pairwise_append]
    refine ⟨?_, ih (o + 1), ?_⟩
    · split <;> simp
    · intro a ha y hy
      have hy' := (mem_scanBufferAux hy).1
      have ha' : a = o := by
        by_cases hm : matchesHere cells (b :: bs) = true
        · simpa [hm] using ha
        · simp [hm] at ha
      omega

lemma pairwise_lt_scanBuffer (cells : List Cell) (buf : List Nat) :
    (scanBuffer cells buf).Pairwise (· < ·) := by
  unfold scanBuffer
  split
  · simp
  · exact pairwise_lt_scanBufferAux cells buf 0

lemma mem_scanBuffer {cells : List Cell} {buf : List Nat} {x : Nat}
    (h : x ∈ scanBuffer cells buf) : x + cells.length ≤ buf.length := by
  unfold scanBuffer at h
  split at h
  · simp at h
  · simpa using (mem_scanBufferAux h).2

lemma mem_segMatches {cells : List Cell} {s : Segment} {y : Nat}
    (h : y ∈ (scanBuffer cells s.bytes).map (fun o => s.start + o)) :
    s.start ≤ y ∧ y + cells.length ≤ s.start + s.bytes.length := by
  simp only [List.mem_map] at h
  obtain ⟨o, ho, rfl⟩ := h
  have := mem_scanBuffer ho
  omega

lemma pairwise_lt_segMatches (cells : List Cell) (s : Segment) :
    ((scanBuffer cells s.bytes).map (fun o => s.start + o)).Pairwise (· < ·) := by
  rw [List.pairwise_map]
  exact (pairwise_lt_scanBuffer cells s.bytes).imp (fun h => by omega)

/-- Under pairwise-disjoint segments, the driver's accumulated address list is
already strictly ascending: within a segment offsets ascend, and ascending
start-address iteration over disjoint segments keeps whole segments in
address order. -/
lemma sorted_lt_scan_all {cells : List Cell} {segs : List Segment}
    (hd : pairwiseDisjoint segs) :
    (scan_all cells segs).Pairwise (· < ·) := by
  unfold scan_all
  rw [List.pairwise_flatMap]
  refine ⟨fun s _ => pairwise_lt_segMatches cells s, ?_⟩
  have hsort : (List.insertionSort segLE segs).Pairwise segLE :=
    List.sorted_insertionSort segLE segs
  have hdisj : (List.insertionSort segLE segs).Pairwise segsDisjoint :=
    ((List.perm_insertionSort segLE segs).pairwise_iff (fun h => h.symm)).2 hd
  refine (hsort.and hdisj).imp ?_
  intro s t hst a ha b hb
  by_cases hc : cells.isEmpty
  · simp [scanBuffer, hc] at ha
  · have hlen : 0 < cells.length := by
      cases cells
      · simp at hc
      · simp
    have hA := mem_segMatches ha
    have hB := mem_segMatches hb
    have h1 : s.start ≤ t.start := hst.1
    rcases hst.2 with hcase | hcase <;> omega

/-- Unfolding of `ScanForArrayOfBytesInternal` on the successful path
(well-formed pattern, not cancelled): the accumulated results are exactly the
driver's output, truncation is decided by `MAX_SCAN_RESULTS ≤ length`, the
`resize` happens before the sort, and the report is built from the sorted
post-truncation list. -/
lemma internal_ok (pat : Pattern) (ps : String) (segs : List Segment)
    (blocks : Nat → List BlockInfo) (hp : pat.cells ≠ []) :
    ScanForArrayOfBytesInternal false pat ps segs blocks =
      { log := [], scanned := true,
        results := List.insertionSort (· ≤ ·)
          (if MAX_SCAN_RESULTS ≤ (scan_all pat.cells segs).length then
            (scan_all pat.cells segs).take MAX_SCAN_RESULTS
          else scan_all pat.cells segs),
        truncated := decide (MAX_SCAN_RESULTS ≤ (scan_all pat.cells segs).length),
        report := some
          ((if MAX_SCAN_RESULTS ≤ (scan_all pat.cells segs).length then
              [ReportLine.warnTruncated MAX_SCAN_RESULTS] else [])
           ++ [ReportLine.header
                (List.insertionSort (· ≤ ·)
                  (if MAX_SCAN_RESULTS ≤ (scan_all pat.cells segs).length then
                    (scan_all pat.cells segs).take MAX_SCAN_RESULTS
                  else scan_all pat.cells segs)).length ps]
           ++ (if 0 < pat.cells.length then [ReportLine.patternInfo pat.cells.length] else [])
           ++ formatResults blocks
                (List.insertionSort (· ≤ ·)
                  (if MAX_SCAN_RESULTS ≤ (scan_all pat.cells segs).length then
                    (scan_all pat.cells segs).take MAX_SCAN_RESULTS
                  else scan_all pat.cells segs))) } := by
  have hp' : pat.cells.isEmpty = false := by
    cases h : pat.cells
    · exact absurd h hp
    · simp
  have hacc :
      (if !(scan_all pat.cells segs).isEmpty then
        (if ([] : List Nat).length ≤ MAX_SCAN_RESULTS then
          ([] : List Nat) ++ scan_all pat.cells segs else ([] : List Nat))
       else ([] : List Nat)) = scan_all pat.cells segs := by
    cases h : scan_all pat.cells segs <;> simp [MAX_SCAN_RESULTS]
  simp only [ScanForArrayOfBytesInternal, hp', Bool.false_eq_true, if_false,
    hacc, decide_eq_true_eq]

/-- Every address in the result list gets its own address line in the report
body. -/
lemma addrLine_mem_formatResults {blocks : Nat → List BlockInfo} {rs : List Nat}
    {a : Nat} (h : a ∈ rs) : ReportLine.addrLine a ∈ formatResults blocks rs := by
  induction rs with
  | nil => simp at h
  | cons r rest ih =>
    simp only [formatResults, List.cons_append, List.mem_cons, List.mem_append]
    rcases List.mem_cons.1 h with rfl | h
    · exact Or.inl rfl
    · exact Or.inr (Or.inr (ih h))

/-- A context line for address `a` appears in the report body only when the
collaborator resolves at least one block for `a`. -/
lemma ctxLine_mem_formatResults {blocks : Nat → List BlockInfo} {rs : List Nat}
    {a : Nat} {nm it : String}
    (h : ReportLine.ctxLine a nm it ∈ formatResults blocks rs) : blocks a ≠ [] := by
  induction rs with
  | nil => simp [formatResults] at h
  | cons r rest ih =>
    have hshape : formatResults blocks (r :: rest) =
        (ReportLine.addrLine r ::
          (if (blocks r).isEmpty then []
           else (blocks r).map (fun b => ReportLine.ctxLine r b.funcName b.instrText)))
        ++ formatResults blocks rest := rfl
    rw [hshape] at h
    rcases List.mem_append.1 h with h1 | h1
    · rcases List.mem_cons.1 h1 with heq | h2
      · exact absurd heq (by simp)
      · by_cases hr : (blocks r).isEmpty = true
        · rw [if_pos hr] at h2
          simp at h2
        · rw [if_neg hr] at h2
          obtain ⟨b, hb, heq⟩ := List.mem_map.1 h2
          obtain ⟨rfl, -, -⟩ := ReportLine.ctxLine.inj heq
          intro hnil
          rw [hnil] at hb
          simp at hb
    · exact ih h1

/-- The internal scan logs at most the empty-pattern error; the length-mismatch
error can only come from the byte+mask path of the task wrapper. -/
lemma internal_log_no_mismatch (cancelled : Bool) (pat : Pattern) (ps : String)
    (segs : List Segment) (blocks : Nat → List BlockInfo) :
    (ScanForArrayOfBytesInternal cancelled pat ps segs blocks).log.all
      (fun e => !e.isLengthMismatchErr) = true := by
  simp only [ScanForArrayOfBytesInternal]
  split
  · simp [LogEntry.isLengthMismatchErr]
  · split
    · simp
    · split
      · simp
      · simp

/-- The callback loop writes exactly the first `limit` match offsets. -/
lemma scanLoop_eq_take (limit : Nat) (offs : List Nat) :
    ∀ total, total < limit →
      BinjaPattern_ScanLoop limit offs total = offs.take (limit - total) := by
  induction offs with
  | nil =>
    intro total h
    simp [BinjaPattern_ScanLoop]
  | cons p rest ih =>
    intro total h
    simp only [BinjaPattern_ScanLoop]
    by_cases he : total + 1 = limit
    · have hb : (total + 1 == limit) = true := by simp [he]
      rw [if_pos hb]
      have h1 : limit - total = 1 := by omega
      simp [h1]
    · have hb : (total + 1 == limit) = false := by simp [he]
      rw [if_neg (by simp [hb])]
      have h2 : total + 1 < limit := by omega
      rw [ih (total + 1) h2]
      have h3 : limit - total = (limit - (total + 1)) + 1 := by omega
      rw [h3, List.take_succ_cons]

/-! ### Claim theorems -/

/-- Claim C4: for every nonempty byte sequence and nonempty mask string of
different lengths, byte+mask compilation fails with the length-mismatch
error, reported immediately, and no scan is performed: no pattern is built,
the matcher is never invoked, and no report is produced. -/
theorem c4_mask_length_mismatch (cancelled : Bool) (unescape : String → List Nat)
    (ps ms : String) (segs : List Segment) (blocks : Nat → List BlockInfo)
    (_hb : unescape ps ≠ []) (hm : ms ≠ "")
    (hl : (unescape ps).length ≠ ms.length) :
    ScanForArrayOfBytesTask cancelled unescape ps ms segs blocks =
      { usedTokenForm := false,
        log := [LogEntry.errLengthMismatch (unescape ps).length ms.length],
        scanned := false, results := [], truncated := false, report := none } := by
  simp [ScanForArrayOfBytesTask, hm, hl]

/-- Witness for C4 at a concrete input: two unescaped bytes against a
three-character mask. -/
theorem c4_mask_length_mismatch_witness :
    (fun _ => [170, 187] : String → List Nat) "AA BB" ≠ [] ∧
    ("xxx" : String) ≠ "" ∧
    ((fun _ => [170, 187] : String → List Nat) "AA BB").length ≠ ("xxx" : String).length ∧
    ScanForArrayOfBytesTask false (fun _ => [170, 187]) "AA BB" "xxx" [] (fun _ => []) =
      { usedTokenForm := false, log := [LogEntry.errLengthMismatch 2 3],
        scanned := false, results := [], truncated := false, report := none } :=
  ⟨by decide, by decide, by decide,
    c4_mask_length_mismatch false (fun _ => [170, 187]) "AA BB" "xxx" [] (fun _ => [])
      (by decide) (by decide) (by decide)⟩

/-- Claim C5: a pattern that is empty or malformed (zero cells) makes the scan
attempt no matching, log the error for the caller, and produce no report; the
function returns normally, so the condition is terminal only for that scan. -/
theorem c5_empty_pattern_no_scan (cancelled : Bool) (pat : Pattern) (ps : String)
    (segs : List Segment) (blocks : Nat → List BlockInfo) (h : pat.cells = []) :
    ScanForArrayOfBytesInternal cancelled pat ps segs blocks =
      { log := [LogEntry.errEmptyPattern ps], scanned := false, results := [],
        truncated := false, report := none } := by
  simp [ScanForArrayOfBytesInternal, h]

/-- Witness for C5 at a concrete input: the zero-cell pattern. -/
theorem c5_empty_pattern_no_scan_witness :
    (⟨[]⟩ : Pattern).cells = [] ∧
    ScanForArrayOfBytesInternal false ⟨[]⟩ "zz" [] (fun _ => []) =
      { log := [LogEntry.errEmptyPattern "zz"], scanned := false, results := [],
        truncated := false, report := none } :=
  ⟨rfl, c5_empty_pattern_no_scan false ⟨[]⟩ "zz" [] (fun _ => []) rfl⟩

/-- Claim C6: when the cancellation flag is set before any segment is
processed, the task yields the empty, non-truncated result, the matcher is
never invoked, and the report-formatting path is never reached. -/
theorem c6_cancelled_before_start (pat : Pattern) (ps : String)
    (segs : List Segment) (blocks : Nat → List BlockInfo) :
    (ScanForArrayOfBytesInternal true pat ps segs blocks).results = [] ∧
    (ScanForArrayOfBytesInternal true pat ps segs blocks).truncated = false ∧
    (ScanForArrayOfBytesInternal true pat ps segs blocks).report = none ∧
    (ScanForArrayOfBytesInternal true pat ps segs blocks).scanned = false := by
  by_cases hp : pat.cells.isEmpty <;> simp [ScanForArrayOfBytesInternal, hp]

/-- Claim C8: with an empty mask string the pattern is compiled in token form
and the byte+mask path is never taken, so the length-mismatch error is never
logged, for any pattern text and any unescape behaviour. -/
theorem c8_empty_mask_token_form (cancelled : Bool) (unescape : String → List Nat)
    (ps : String) (segs : List Segment) (blocks : Nat → List BlockInfo) :
    (ScanForArrayOfBytesTask cancelled unescape ps "" segs blocks).usedTokenForm = true ∧
    (ScanForArrayOfBytesTask cancelled unescape ps "" segs blocks).log.all
      (fun e => !e.isLengthMismatchErr) = true := by
  constructor
  · simp [ScanForArrayOfBytesTask]
  · simp only [ScanForArrayOfBytesTask, if_pos rfl]
    exact internal_log_no_mismatch cancelled _ ps segs blocks

/-- Claim C10: the applicability predicate gating "Create Signature" holds
exactly when the view has a default architecture named "x86" or "x86_64" and
the address is executable. -/
theorem c10_create_signature_applicability (archName : Option String) (isExec : Bool) :
    isSignatureApplicable archName isExec = true ↔
      ((archName = some "x86" ∨ archName = some "x86_64") ∧ isExec = true) := by
  cases archName with
  | none => simp [isSignatureApplicable]
  | some nm =>
    by_cases h1 : nm = "x86"
    · subst h1
      cases isExec <;> simp [isSignatureApplicable]
    · by_cases h2 : nm = "x86_64"
      · subst h2
        cases isExec <;> simp [isSignatureApplicable]
      · cases isExec <;> simp [isSignatureApplicable, h1, h2]

/-- Witness for C10 at a concrete input: an x86_64 view at an executable
address is offered the command. -/
theorem c10_create_signature_applicability_witness :
    isSignatureApplicable (some "x86_64") true = true :=
  (c10_create_signature_applicability (some "x86_64") true).2 ⟨Or.inr rfl, rfl⟩

/-- Claim C3: `BinjaPattern_Scan` writes exactly the first `limit` match
offsets (relative to the data pointer, in the matcher's ascending order) and
returns the number of entries written, which never exceeds `limit`; with
`limit = 0` this means nothing is written and 0 is returned, since
`take 0 = []`. -/
theorem c3_scan_api_contract (pat : Pattern) (data : List Nat) (limit : Nat) :
    (BinjaPattern_Scan pat data limit).1 = (scanBuffer pat.cells data).take limit ∧
    (BinjaPattern_Scan pat data limit).2 = (BinjaPattern_Scan pat data limit).1.length ∧
    (BinjaPattern_Scan pat data limit).2 ≤ limit := by
  by_cases h0 : limit = 0
  · subst h0
    simp [BinjaPattern_Scan]
  · have hpos : 0 < limit := Nat.pos_of_ne_zero h0
    have hw : BinjaPattern_ScanLoop limit (scanBuffer pat.cells data) 0
        = (scanBuffer pat.cells data).take limit := by
      simpa using scanLoop_eq_take limit (scanBuffer pat.cells data) 0 hpos
    refine ⟨?_, ?_, ?_⟩ <;> simp [BinjaPattern_Scan, h0, hw, List.length_take_le]

/-- Claim C7: a result address for which the collaborator yields no containing
code block is still listed in the report with its address line, gets no
context line, and the report is produced without error. -/
theorem c7_missing_block_context (pat : Pattern) (ps : String) (segs : List Segment)
    (blocks : Nat → List BlockInfo) (a : Nat)
    (hp : pat.cells ≠ [])
    (ha : a ∈ (ScanForArrayOfBytesInternal false pat ps segs blocks).results)
    (hb : blocks a = []) :
    ∃ rep, (ScanForArrayOfBytesInternal false pat ps segs blocks).report = some rep ∧
      ReportLine.addrLine a ∈ rep ∧
      ∀ nm it : String, ReportLine.ctxLine a nm it ∉ rep := by
  rw [internal_ok pat ps segs blocks hp] at ha ⊢
  simp only [] at ha ⊢
  refine ⟨_, rfl, ?_, ?_⟩
  · exact List.mem_append.2 (Or.inr (addrLine_mem_formatResults ha))
  · intro nm it hmem
    rcases List.mem_append.1 hmem with h1 | h1
    · rcases List.mem_append.1 h1 with h2 | h2
      · rcases List.mem_append.1 h2 with h3 | h3
        · split at h3 <;> simp at h3
        · simp at h3
      · split at h2 <;> simp at h2
    · exact ctxLine_mem_formatResults h1 hb

/-- Witness for C7 at a concrete input: one match at address 0 with a
collaborator that resolves no blocks. -/
theorem c7_missing_block_context_witness :
    0 ∈ (ScanForArrayOfBytesInternal false ⟨[Cell.byte 170]⟩ "AA"
          [⟨0, [170]⟩] (fun _ => [])).results ∧
    (∃ rep, (ScanForArrayOfBytesInternal false ⟨[Cell.byte 170]⟩ "AA"
          [⟨0, [170]⟩] (fun _ => [])).report = some rep ∧
        ReportLine.addrLine 0 ∈ rep ∧
        ∀ nm it : String, ReportLine.ctxLine 0 nm it ∉ rep) :=
  ⟨by decide,
    c7_missing_block_context ⟨[Cell.byte 170]⟩ "AA" [⟨0, [170]⟩] (fun _ => []) 0
      (by decide) (by decide) rfl⟩

/-- Scanning a run of `n` 0xAA bytes for the single-byte pattern 0xAA matches
at every offset. -/
lemma scanBufferAux_byte_replicate (n o : Nat) :
    scanBufferAux [Cell.byte 170] (List.replicate n 170) o = List.range' o n := by
  induction n generalizing o with
  | zero => simp [scanBufferAux]
  | succ n ih =>
    rw [List.replicate_succ]
    simp [scanBufferAux, matchesHere, cellMatches, ih, List.range'_succ]

/-- The driver's output for a single segment of `n` 0xAA bytes at address 0
under the single-byte pattern 0xAA: all addresses `0..n-1`. -/
lemma scan_all_single_byte_replicate (n : Nat) :
    scan_all [Cell.byte 170] [⟨0, List.replicate n 170⟩] = List.range' 0 n := by
  simp [scan_all, scanBuffer, scanBufferAux_byte_replicate]

/-- The driver's output on the overlapping counterexample input: the big
segment contributes `0..1000` and the overlapping one-byte segment appends
address 1 once more. -/
lemma scan_all_overlapping_input :
    scan_all [Cell.byte 170] [⟨0, List.replicate 1001 170⟩, ⟨1, [170]⟩]
      = List.range' 0 1001 ++ [1] := by
  have h1 : scanBuffer [Cell.byte 170] (List.replicate 1001 170) = List.range' 0 1001 := by
    simp only [scanBuffer, List.isEmpty_cons, Bool.false_eq_true, if_false]
    exact scanBufferAux_byte_replicate 1001 0
  have h2 : scanBuffer [Cell.byte 170] [170] = [0] := by
    simp [scanBuffer, scanBufferAux, matchesHere, cellMatches]
  have hins : List.insertionSort segLE
      [(⟨0, List.replicate 1001 170⟩ : Segment), ⟨1, [170]⟩]
      = [⟨0, List.replicate 1001 170⟩, ⟨1, [170]⟩] := by
    simp only [List.insertionSort, List.orderedInsert]
    rw [if_pos (show segLE ⟨0, List.replicate 1001 170⟩ ⟨1, [170]⟩ from Nat.zero_le 1)]
  unfold scan_all
  rw [hins]
  simp only [List.flatMap_cons, List.flatMap_nil, List.append_nil]
  rw [h1, h2]
  simp

/-- The sorted full match multiset of the overlapping counterexample input:
address 1 occurs twice. -/
lemma insertionSort_overlapping_input :
    List.insertionSort (· ≤ ·) (List.range' 0 1001 ++ [1])
      = 0 :: 1 :: 1 :: List.range' 2 999 := by
  have hr : List.range' 0 1001 = 0 :: 1 :: List.range' 2 999 := by rfl
  refine @List.eq_of_perm_of_sorted ℕ (· ≤ ·) _ _ _ ?_ ?_ ?_
  · refine (List.perm_insertionSort _ _).trans ?_
    rw [hr]
    exact ((List.perm_append_singleton 1 (List.range' 2 999)).cons 1).cons 0
  · exact List.sorted_insertionSort _ _
  · refine List.sorted_cons.2 ⟨fun b _ => Nat.zero_le b,
      List.sorted_cons.2 ⟨?_, List.sorted_cons.2 ⟨?_, List.pairwise_le_range' 2 999⟩⟩⟩
    · intro b hb
      rcases List.mem_cons.1 hb with rfl | hb
      · exact Nat.le_refl 1
      · have := (List.mem_range'_1.1 hb).1
        omega
    · intro b hb
      have := (List.mem_range'_1.1 hb).1
      omega

/-- The final reported result list on the overlapping counterexample input:
the pre-sort `resize` keeps the first 1000 accumulated addresses `0..999`
(dropping the duplicated address 1), which are then sorted. -/
lemma results_overlapping_input :
    (ScanForArrayOfBytesInternal false ⟨[Cell.byte 170]⟩ "AA"
        [⟨0, List.replicate 1001 170⟩, ⟨1, [170]⟩] (fun _ => [])).results
      = List.range' 0 1000 := by
  rw [internal_ok _ _ _ _ (by decide), scan_all_overlapping_input]
  have hcond : MAX_SCAN_RESULTS ≤ (List.range' 0 1001 ++ [1]).length := by
    simp [MAX_SCAN_RESULTS]
  have htake : (List.range' 0 1001 ++ [1]).take MAX_SCAN_RESULTS = List.range' 0 1000 := by
    have h1 : List.range' 0 1001 = List.range' 0 1000 ++ [1000] := by
      simpa using List.range'_1_concat 0 1000
    have h2 : MAX_SCAN_RESULTS = (List.range' 0 1000).length := by
      simp [MAX_SCAN_RESULTS]
    rw [h1, List.append_assoc, h2, List.take_left]
  simp only [if_pos hcond, htake,
    List.Sorted.insertionSort_eq (List.pairwise_le_range' 0 1000)]

/-- Claim C1 as frozen is false: the source truncates (`resize`) before it
sorts, so with overlapping segments — whose accumulated addresses are not
globally ascending — the retained 1000 entries need not be the numerically
smallest matches.  Here segment ⟨0, 1001 bytes of 0xAA⟩ accumulates addresses
0..1000 and the overlapping segment ⟨1, [0xAA]⟩ appends address 1 again; the
true match count is 1002, yet the reported set `0..999` is not the length-1000
prefix `0, 1, 1, 2, ..., 998` of the full sorted match set. -/
theorem c1_counterexample :
    MAX_SCAN_RESULTS <
      (scan_all [Cell.byte 170] [⟨0, List.replicate 1001 170⟩, ⟨1, [170]⟩]).length ∧
    ¬ ((ScanForArrayOfBytesInternal false ⟨[Cell.byte 170]⟩ "AA"
          [⟨0, List.replicate 1001 170⟩, ⟨1, [170]⟩] (fun _ => [])).results =
        (List.insertionSort (· ≤ ·)
          (scan_all [Cell.byte 170] [⟨0, List.replicate 1001 170⟩, ⟨1, [170]⟩])).take
          MAX_SCAN_RESULTS) := by
  constructor
  · rw [scan_all_overlapping_input]
    simp [MAX_SCAN_RESULTS]
  · rw [results_overlapping_input, scan_all_overlapping_input,
      insertionSort_overlapping_input]
    intro h
    have h1 : List.range' 0 1000 = 0 :: 1 :: 2 :: List.range' 3 997 := by rfl
    have h2 : (0 :: 1 :: 1 :: List.range' 2 999).take MAX_SCAN_RESULTS
        = 0 :: 1 :: 1 :: (List.range' 2 999).take 997 := by rfl
    rw [h1, h2] at h
    simp at h

/-- Claim C1 (amended): provided the segments are pairwise non-overlapping —
so that the driver's accumulated match list is already ascending when the
pre-sort `resize` truncates it — a scan whose true match count exceeds
`MAX_SCAN_RESULTS` reports exactly `MAX_SCAN_RESULTS` addresses, marks the
result truncated (flag and warning line), and the reported set is the length-
`MAX_SCAN_RESULTS` prefix of the full sorted match set, i.e. the numerically
smallest matches. -/
theorem c1_truncated_to_smallest (pat : Pattern) (ps : String)
    (segs : List Segment) (blocks : Nat → List BlockInfo)
    (hp : pat.cells ≠ []) (hd : pairwiseDisjoint segs)
    (hn : MAX_SCAN_RESULTS < (scan_all pat.cells segs).length) :
    (ScanForArrayOfBytesInternal false pat ps segs blocks).results.length
        = MAX_SCAN_RESULTS ∧
    (ScanForArrayOfBytesInternal false pat ps segs blocks).truncated = true ∧
    (∃ rep, (ScanForArrayOfBytesInternal false pat ps segs blocks).report = some rep ∧
        ReportLine.warnTruncated MAX_SCAN_RESULTS ∈ rep) ∧
    (ScanForArrayOfBytesInternal false pat ps segs blocks).results =
      (List.insertionSort (· ≤ ·) (scan_all pat.cells segs)).take MAX_SCAN_RESULTS := by
  have hful : (scan_all pat.cells segs).Pairwise (· < ·) := sorted_lt_scan_all hd
  have hle : MAX_SCAN_RESULTS ≤ (scan_all pat.cells segs).length := le_of_lt hn
  have hkept : ((scan_all pat.cells segs).take MAX_SCAN_RESULTS).Pairwise (· < ·) :=
    List.Pairwise.sublist (List.take_sublist _ _) hful
  have hsort_eq :
      List.insertionSort (· ≤ ·) ((scan_all pat.cells segs).take MAX_SCAN_RESULTS)
        = (scan_all pat.cells segs).take MAX_SCAN_RESULTS :=
    List.Sorted.insertionSort_eq (hkept.imp fun h => le_of_lt h)
  have hfull_eq :
      List.insertionSort (· ≤ ·) (scan_all pat.cells segs) = scan_all pat.cells segs :=
    List.Sorted.insertionSort_eq (hful.imp fun h => le_of_lt h)
  rw [internal_ok pat ps segs blocks hp]
  refine ⟨?_, ?_, ?_, ?_⟩
  · simp [if_pos hle, hsort_eq, List.length_take, Nat.min_eq_left hle]
  · simp [hle]
  · refine ⟨_, rfl, ?_⟩
    simp [if_pos hle]
  · simp [if_pos hle, hsort_eq, hfull_eq]

/-- Witness for the amended C1 at a concrete input: one segment of 1001
matching bytes (1001 > 1000 matches, trivially disjoint). -/
theorem c1_truncated_to_smallest_witness :
    (⟨[Cell.byte 170]⟩ : Pattern).cells ≠ [] ∧
    pairwiseDisjoint [⟨0, List.replicate 1001 170⟩] ∧
    MAX_SCAN_RESULTS < (scan_all [Cell.byte 170] [⟨0, List.replicate 1001 170⟩]).length ∧
    (ScanForArrayOfBytesInternal false ⟨[Cell.byte 170]⟩ "AA"
        [⟨0, List.replicate 1001 170⟩] (fun _ => [])).results.length = MAX_SCAN_RESULTS :=
  ⟨by decide, by simp [pairwiseDisjoint],
    by rw [scan_all_single_byte_replicate]; simp [MAX_SCAN_RESULTS],
    (c1_truncated_to_smallest ⟨[Cell.byte 170]⟩ "AA"
      [⟨0, List.replicate 1001 170⟩] (fun _ => []) (by decide)
      (by simp [pairwiseDisjoint])
      (by rw [scan_all_single_byte_replicate]; simp [MAX_SCAN_RESULTS])).1⟩

/-- Claim C2 as frozen is false: the source sorts but never deduplicates, so
with overlapping segments a duplicated match survives into the final output,
which is then not strictly ascending.  Two identical segments ⟨0, [0xAA]⟩
yield the final result list [0, 0]. -/
theorem c2_counterexample :
    ¬ ((ScanForArrayOfBytesInternal false ⟨[Cell.byte 170]⟩ "AA"
          [⟨0, [170]⟩, ⟨0, [170]⟩] (fun _ => [])).results).Pairwise (· < ·) := by
  decide

/-- Claim C2 (amended): provided the segments are pairwise non-overlapping,
the final result addresses of a completed (non-cancelled) scan are strictly
ascending — hence each address appears exactly once — regardless of the order
of the input segments. -/
theorem c2_results_strictly_ascending (pat : Pattern) (ps : String)
    (segs : List Segment) (blocks : Nat → List BlockInfo)
    (hd : pairwiseDisjoint segs) :
    ((ScanForArrayOfBytesInternal false pat ps segs blocks).results).Pairwise (· < ·) := by
  by_cases hp : pat.cells = []
  · simp [ScanForArrayOfBytesInternal, hp]
  · rw [internal_ok pat ps segs blocks hp]
    have hful : (scan_all pat.cells segs).Pairwise (· < ·) := sorted_lt_scan_all hd
    have hkept : (if MAX_SCAN_RESULTS ≤ (scan_all pat.cells segs).length then
        (scan_all pat.cells segs).take MAX_SCAN_RESULTS
        else scan_all pat.cells segs).Pairwise (· < ·) := by
      split
      · exact List.Pairwise.sublist (List.take_sublist _ _) hful
      · exact hful
    have hsort_eq := List.Sorted.insertionSort_eq (hkept.imp fun h => le_of_lt h)
    simpa [hsort_eq] using hkept

/-- Witness for the amended C2 at a concrete input: two disjoint unsorted-free
segments with one match each. -/
theorem c2_results_strictly_ascending_witness :
    pairwiseDisjoint [⟨0, [170]⟩, ⟨5, [170]⟩] ∧
    ((ScanForArrayOfBytesInternal false ⟨[Cell.byte 170]⟩ "AA"
        [⟨0, [170]⟩, ⟨5, [170]⟩] (fun _ => [])).results).Pairwise (· < ·) :=
  ⟨by decide,
    c2_results_strictly_ascending ⟨[Cell.byte 170]⟩ "AA"
      [⟨0, [170]⟩, ⟨5, [170]⟩] (fun _ => []) (by decide)⟩

/-- Claim C9: the truncation warning is emitted whenever the accumulated
result count reaches `MAX_SCAN_RESULTS` (the source compares with `>=`); in
particular a scan with exactly `MAX_SCAN_RESULTS` true matches is reported as
truncated even though no match is dropped — the final results are then a
permutation (the sort) of the full accumulated match list. -/
theorem c9_truncation_at_threshold (pat : Pattern) (ps : String)
    (segs : List Segment) (blocks : Nat → List BlockInfo)
    (hp : pat.cells ≠ [])
    (hn : MAX_SCAN_RESULTS ≤ (scan_all pat.cells segs).length) :
    (ScanForArrayOfBytesInternal false pat ps segs blocks).truncated = true ∧
    (∃ rep, (ScanForArrayOfBytesInternal false pat ps segs blocks).report = some rep ∧
        ReportLine.warnTruncated MAX_SCAN_RESULTS ∈ rep) ∧
    ((scan_all pat.cells segs).length = MAX_SCAN_RESULTS →
      ((ScanForArrayOfBytesInternal false pat ps segs blocks).results).Perm
        (scan_all pat.cells segs)) := by
  rw [internal_ok pat ps segs blocks hp]
  refine ⟨by simp [hn], ⟨_, rfl, by simp [if_pos hn]⟩, ?_⟩
  intro hlen
  have htake : (scan_all pat.cells segs).take MAX_SCAN_RESULTS
      = scan_all pat.cells segs := by
    rw [← hlen]
    exact List.take_length _
  simp only [if_pos hn, htake]
  exact List.perm_insertionSort _ _

/-- Witness for C9 at a concrete input: one segment of exactly 1000 matching
bytes — reported truncated although nothing is dropped. -/
theorem c9_truncation_at_threshold_witness :
    (ScanForArrayOfBytesInternal false ⟨[Cell.byte 170]⟩ "AA"
        [⟨0, List.replicate 1000 170⟩] (fun _ => [])).truncated = true ∧
    ((ScanForArrayOfBytesInternal false ⟨[Cell.byte 170]⟩ "AA"
        [⟨0, List.replicate 1000 170⟩] (fun _ => [])).results).Perm
      (scan_all [Cell.byte 170] [⟨0, List.replicate 1000 170⟩]) := by
  have h := c9_truncation_at_threshold ⟨[Cell.byte 170]⟩ "AA"
    [⟨0, List.replicate 1000 170⟩] (fun _ => []) (by decide)
    (by rw [scan_all_single_byte_replicate]; simp [MAX_SCAN_RESULTS])
  exact ⟨h.1, h.2.2 (by rw [scan_all_single_byte_replicate]; simp [MAX_SCAN_RESULTS])⟩

end BinjaPattern
